import Mathlib

/-!
Verification development for the XML-backed airline record store implemented in
`src/components/AirlineList.tsx`.

The component keeps a mutable XML document tree (`xmlDoc`), derives a flat list
of airline records from it with XPath queries (`updateAirlineList`), appends a
new `airline` element on form submission (`handleSubmit`), sorts the derived
list (`handleSort` / `sortedAirlines`), and loads/parses the document once at
startup (`fetchData`).  The source file contains two variants of the component;
they differ only in the XPath strings used for field lookup
(`"./name/text()"` in the first variant, `"name/text()"` in the second).

We embed the DOM document as an ordered tree of element and text nodes, the
XPath expressions used by the code as small step lists evaluated over that
tree, and the React state as an explicit record with pure transition
functions.  `DOMParser` / `XMLSerializer` from `xmldom` are modelled by an
executable parser and serializer over character lists, following xmldom's
behaviour (text escaping of `& < >`, `<tag/>` for childless elements, the
`textContent` setter creating no text node for the empty string).
-/

namespace AirlineStore

/-- A DOM node: an element with a tag name and an ordered child list, or a
text node with character data.  Attributes, comments and the like play no
role in this program and are not modelled. -/
inductive XNode where
  | elem (tag : String) (children : List XNode)
  | text (data : String)

mutual

/-- Boolean equality of nodes (structural). -/
def beqN : XNode → XNode → Bool
  | .text s, .text t => s == t
  | .elem t cs, .elem u ds => t == u && beqL cs ds
  | _, _ => false

/-- Boolean equality of node lists (structural). -/
def beqL : List XNode → List XNode → Bool
  | [], [] => true
  | a :: l, b :: m => beqN a b && beqL l m
  | _, _ => false

end

mutual

theorem beqN_iff : ∀ (a b : XNode), beqN a b = true ↔ a = b
  | .text _, .text _ => by simp [beqN]
  | .text _, .elem _ _ => by simp [beqN]
  | .elem _ _, .text _ => by simp [beqN]
  | .elem _ cs, .elem _ ds => by simp [beqN, beqL_iff cs ds]

theorem beqL_iff : ∀ (l m : List XNode), beqL l m = true ↔ l = m
  | [], [] => by simp [beqL]
  | [], _ :: _ => by simp [beqL]
  | _ :: _, [] => by simp [beqL]
  | a :: l, b :: m => by simp [beqL, beqN_iff a b, beqL_iff l m]

end

instance : DecidableEq XNode := fun a b => decidable_of_iff _ (beqN_iff a b)

/-- A DOM `Document`.  `root` is the `documentElement` that
`handleSubmit` appends to. -/
structure XMLDoc where
  root : XNode
deriving DecidableEq

/-- The `Airline` interface of the source: three string fields. -/
structure Airline where
  name : String
  country : String
  type : String
deriving DecidableEq

/-- The `SortKey` type alias of the source: `"name" | "country" | "type"`. -/
inductive SortKey where
  | name
  | country
  | type
deriving DecidableEq

/-- Sort direction state: `"asc" | "desc"`. -/
inductive SortDir where
  | asc
  | desc
deriving DecidableEq

/-- Projection `a[sortKey]` of the source: field projection by sort key. -/
def getField : SortKey → Airline → String
  | .name, a => a.name
  | .country, a => a.country
  | .type, a => a.type

/-- Children of a node (a text node has none). -/
def XNode.childrenOf : XNode → List XNode
  | .elem _ cs => cs
  | .text _ => []

/-- Is this node an element with the given tag? -/
def isElemTag (tag : String) : XNode → Bool
  | .elem t _ => t = tag
  | .text _ => false

/-- Is this node a text node? -/
def isTextNode : XNode → Bool
  | .elem _ _ => false
  | .text _ => true

/-- Reading `nodeValue` of a node: the character data of a text node (the code only
reads it from text nodes selected by a `text()` step). -/
def nodeValue : XNode → String
  | .elem _ _ => ""
  | .text s => s

/-- One step of the relative XPath expressions used by the code. -/
inductive XStep where
  | selfNode
  | childElem (tag : String)
  | textNodes
deriving DecidableEq

/-- Evaluate one XPath step at a context node, in document order. -/
def evalStep : XStep → XNode → List XNode
  | .selfNode, n => [n]
  | .childElem tag, n => n.childrenOf.filter (isElemTag tag)
  | .textNodes, n => n.childrenOf.filter isTextNode

/-- Evaluate a relative XPath (a list of steps) at a context node; the
result list is in document order, as the `xpath` library returns it. -/
def evalRelPath (steps : List XStep) (n : XNode) : List XNode :=
  steps.foldl (fun ns s => ns.flatMap (evalStep s)) [n]

/-- Model of `xpath.select1(path, node)`: the first node of the selection, or null. -/
def select1 (steps : List XStep) (n : XNode) : Option XNode :=
  (evalRelPath steps n).head?

/-- The path `"./name/text()"` (first source variant):
`self::node() / child::field / child::text()`. -/
def fieldPathDot (field : String) : List XStep :=
  [.selfNode, .childElem field, .textNodes]

/-- The path `"name/text()"` (second source variant):
`child::field / child::text()`. -/
def fieldPathBare (field : String) : List XStep :=
  [.childElem field, .textNodes]

/-- Reading `xpath.select1(...)?.nodeValue || "Unknown"`: a missing node (null) or a
falsy node value (the empty string) yields the literal `"Unknown"`. -/
def textOrUnknown (o : Option XNode) : String :=
  match o with
  | none => "Unknown"
  | some n => if nodeValue n = "" then "Unknown" else nodeValue n

/-- Field resolution of the first variant: `select1("./f/text()", node)`. -/
def fieldValueDot (field : String) (n : XNode) : String :=
  textOrUnknown (select1 (fieldPathDot field) n)

/-- Field resolution of the second variant: `select1("f/text()", node)`. -/
def fieldValueBare (field : String) (n : XNode) : String :=
  textOrUnknown (select1 (fieldPathBare field) n)

mutual

/-- All nodes of the subtree rooted at a node, in document (pre-)order. -/
def preorder : XNode → List XNode
  | .text s => [.text s]
  | .elem t cs => .elem t cs :: preorderList cs

/-- All nodes of a forest, in document (pre-)order. -/
def preorderList : List XNode → List XNode
  | [] => []
  | n :: ns => preorder n ++ preorderList ns

end

/-- Model of `xpath.select("//airline", doc)`: every element named `airline` anywhere
in the document, in document order. -/
def selectAllAirlines (doc : XMLDoc) : List XNode :=
  (preorder doc.root).filter (isElemTag "airline")

/-- The record built for one `airline` node by the first variant's map. -/
def recordOfNode (n : XNode) : Airline :=
  { name := fieldValueDot "name" n
    country := fieldValueDot "country" n
    type := fieldValueDot "type" n }

/-- The record built for one `airline` node by the second variant's map. -/
def recordOfNodeBare (n : XNode) : Airline :=
  { name := fieldValueBare "name" n
    country := fieldValueBare "country" n
    type := fieldValueBare "type" n }

/-- Function `updateAirlineList` (first variant): select `//airline`, map each node to
a record via `"./field/text()"` lookups.  The resulting list is what
`setAirlines` stores. -/
def updateAirlineList (doc : XMLDoc) : List Airline :=
  (selectAllAirlines doc).map recordOfNode

/-- Function `updateAirlineList` (second variant): identical except for the
`"field/text()"` lookups. -/
def updateAirlineListBare (doc : XMLDoc) : List Airline :=
  (selectAllAirlines doc).map recordOfNodeBare

/-- xmldom's `textContent` setter on a freshly created element: it removes
all children and, only when the assigned string is non-empty, appends one
text node holding it (`createElement` then `el.textContent = s`). -/
def setTextContent (tag s : String) : XNode :=
  .elem tag (if s = "" then [] else [.text s])

/-- The `<airline>` element built by `handleSubmit`: children `name`,
`country`, `type` in that order, each given the corresponding field via
`textContent`. -/
def mkAirlineElement (a : Airline) : XNode :=
  .elem "airline" [setTextContent "name" a.name,
                   setTextContent "country" a.country,
                   setTextContent "type" a.type]

/-- Model of `xmlDoc.documentElement.appendChild(newAirlineElement)`: the new node
becomes the last child of the root element. -/
def appendChildRoot (doc : XMLDoc) (n : XNode) : XMLDoc :=
  match doc.root with
  | .elem t cs => ⟨.elem t (cs ++ [n])⟩
  | .text s => ⟨.text s⟩

/-- The React state of the component: the derived record list, the optional
document tree, the pending form record, and the sort state. -/
structure ComponentState where
  airlines : List Airline
  xmlDoc : Option XMLDoc
  newAirline : Airline
  sortKey : SortKey
  sortDirection : SortDir
deriving DecidableEq

/-- The initial state set by the `useState` hooks. -/
def initialState : ComponentState :=
  { airlines := []
    xmlDoc := none
    newAirline := { name := "", country := "", type := "" }
    sortKey := .name
    sortDirection := .asc }

/-- JS `<` on strings, character by character on code units (all strings in
this program are BMP, where code units and code points agree). -/
def jsLtChars : List Char → List Char → Bool
  | _, [] => false
  | [], _ :: _ => true
  | a :: as, b :: bs =>
    a.toNat < b.toNat || (a.toNat = b.toNat && jsLtChars as bs)

/-- JS string comparison `a < b`. -/
def jsStrLt (a b : String) : Bool :=
  jsLtChars a.data b.data

/-- The comparator passed to `Array.prototype.sort`:
`if (a[k] < b[k]) return asc ? -1 : 1; if (a[k] > b[k]) return asc ? 1 : -1;
return 0`. -/
def compareAirline (key : SortKey) (dir : SortDir) (a b : Airline) : Int :=
  if jsStrLt (getField key a) (getField key b) then
    match dir with | .asc => -1 | .desc => 1
  else if jsStrLt (getField key b) (getField key a) then
    match dir with | .asc => 1 | .desc => -1
  else 0

/-- Model of `[...airlines].sort(comparator)`: JS sort is stable (ES2019); any stable
sort agrees on a consistent comparator, so it is modelled by a stable
insertion sort keeping pairs the comparator orders non-positively. -/
def sortedAirlines (key : SortKey) (dir : SortDir) (l : List Airline) : List Airline :=
  l.insertionSort (fun a b => compareAirline key dir a b ≤ 0)

/-- Flip of the sort direction (`prev === "asc" ? "desc" : "asc"`). -/
def toggleDir : SortDir → SortDir
  | .asc => .desc
  | .desc => .asc

/-- Handler `handleSort(key)`: re-selecting the current key toggles the direction,
a different key becomes selected with direction reset to ascending. -/
def handleSort (key : SortKey) (s : ComponentState) : ComponentState :=
  if key = s.sortKey then
    { s with sortDirection := toggleDir s.sortDirection }
  else
    { s with sortKey := key, sortDirection := .asc }

/-- The `setAirlines` effect of running `updateAirlineList doc` in component
state: only the derived record list changes; in particular the tree is not
touched by a query. -/
def runQuery (doc : XMLDoc) (s : ComponentState) : ComponentState :=
  { s with airlines := updateAirlineList doc }

/-- Handler `handleSubmit`: guarded on a present tree.  With a tree, build the new
`airline` element from the pending record, append it to the root, re-derive
the record list, clear the form, and log the serialized document (returned
as the second component; `none` means nothing was logged).  Without a tree,
nothing happens. -/
def handleSubmit (serialize : XMLDoc → String) (s : ComponentState) :
    ComponentState × Option String :=
  match s.xmlDoc with
  | none => (s, none)
  | some doc =>
    let doc' := appendChildRoot doc (mkAirlineElement s.newAirline)
    ({ s with
        xmlDoc := some doc'
        airlines := updateAirlineList doc'
        newAirline := { name := "", country := "", type := "" } },
      some (serialize doc'))

/-- xmldom's text escaping on serialization: `&`, `<`, `>` become entities,
every other character is emitted as is. -/
def escChar (c : Char) : List Char :=
  if c = '&' then "&amp;".data
  else if c = '<' then "&lt;".data
  else if c = '>' then "&gt;".data
  else [c]

/-- Escape a whole text-node payload. -/
def escText (s : List Char) : List Char :=
  s.flatMap escChar

mutual

/-- Model of `XMLSerializer.serializeToString`, per node: text is escaped, a childless
element prints as `<tag/>`, otherwise `<tag>children</tag>`. -/
def serNode : XNode → List Char
  | .text s => escText s.data
  | .elem tag cs =>
    match cs with
    | [] => '<' :: (tag.data ++ ['/', '>'])
    | _ :: _ =>
      '<' :: (tag.data ++ ('>' :: (serNodeList cs ++
        ('<' :: '/' :: (tag.data ++ ['>'])))))

/-- Serialization of a forest: concatenation in order. -/
def serNodeList : List XNode → List Char
  | [] => []
  | n :: ns => serNode n ++ serNodeList ns

end

/-- Serialize a document (its root element). -/
def serializeDoc (doc : XMLDoc) : String :=
  ⟨serNode doc.root⟩

/-- Characters allowed in a tag name by the parser model. -/
def isNameChar (c : Char) : Bool :=
  c.isAlphanum || c = '-' || c = '_' || c = ':' || c = '.'

/-- Read a non-empty run of name characters; fail on an empty run. -/
def parseTagName (cs : List Char) : Option (List Char × List Char) :=
  let n := cs.takeWhile isNameChar
  if n = [] then none else some (n, cs.dropWhile isNameChar)

/-- Decode the entities the serializer can emit (plus the two standard
quote entities); any other `&`-sequence is a parse failure. -/
def unescText : List Char → Option (List Char)
  | [] => some []
  | '&' :: 'l' :: 't' :: ';' :: r => (unescText r).map (fun l => '<' :: l)
  | '&' :: 'g' :: 't' :: ';' :: r => (unescText r).map (fun l => '>' :: l)
  | '&' :: 'a' :: 'm' :: 'p' :: ';' :: r => (unescText r).map (fun l => '&' :: l)
  | '&' :: 'q' :: 'u' :: 'o' :: 't' :: ';' :: r => (unescText r).map (fun l => '"' :: l)
  | '&' :: 'a' :: 'p' :: 'o' :: 's' :: ';' :: r =>
    (unescText r).map (fun l => Char.ofNat 39 :: l)
  | '&' :: _ => none
  | c :: rest => (unescText rest).map (fun l => c :: l)

/-- Model of `DOMParser.parseFromString`: recursive descent over a node list.  Stops
(returning the remaining input) at end of input or at a closing tag; parses
`<tag/>`, `<tag>…</tag>` with a matching close, and text runs up to the next
`<`.  Fuel bounds the recursion depth; `parseDocument` passes enough for any
input it can consume. -/
def parseNodes : Nat → List Char → Option (List XNode × List Char)
  | 0, _ => none
  | _ + 1, [] => some ([], [])
  | fuel + 1, c :: cs =>
    if c = '<' then
      if cs.head? = some '/' then some ([], c :: cs)
      else
        match parseTagName cs with
        | none => none
        | some (tag, r) =>
          match r with
          | '/' :: '>' :: r1 =>
            match parseNodes fuel r1 with
            | none => none
            | some (ns, rr) => some (.elem ⟨tag⟩ [] :: ns, rr)
          | '>' :: r1 =>
            match parseNodes fuel r1 with
            | none => none
            | some (children, r2) =>
              match r2 with
              | '<' :: '/' :: r3 =>
                match parseTagName r3 with
                | none => none
                | some (ctag, r4) =>
                  if ctag = tag then
                    match r4 with
                    | '>' :: r5 =>
                      match parseNodes fuel r5 with
                      | none => none
                      | some (ns, rr) => some (.elem ⟨tag⟩ children :: ns, rr)
                    | _ => none
                  else none
              | _ => none
          | _ => none
    else
      match unescText ((c :: cs).takeWhile (fun x => x ≠ '<')) with
      | none => none
      | some s =>
        match parseNodes fuel ((c :: cs).dropWhile (fun x => x ≠ '<')) with
        | none => none
        | some (ns, r) => some (.text ⟨s⟩ :: ns, r)

/-- Parse an XML string into a document: exactly one root element and no
trailing input; anything else is a parse failure (xmldom raises, and the
component's `try` block catches). -/
def parseDocument (s : String) : Option XMLDoc :=
  match parseNodes (s.data.length + 1) s.data with
  | some ([.elem tag cs], []) => some ⟨.elem tag cs⟩
  | _ => none

/-- Does a forest start with a text node? -/
def headIsText : List XNode → Bool
  | [] => false
  | n :: _ => isTextNode n

/-- A serializable tag name: non-empty, made of name characters. -/
def validTag (s : String) : Bool :=
  !s.data.isEmpty && s.data.all isNameChar

mutual

/-- Well-formed DOM node: tags are serializable names; text nodes are
non-empty (the DOM never creates empty text nodes in this program) and no
two text nodes are adjacent (parsing coalesces a text run). -/
def wfNode : XNode → Bool
  | .text s => !s.data.isEmpty
  | .elem tag cs => validTag tag && wfList cs

/-- Well-formed forest: each node well-formed, no adjacent text nodes. -/
def wfList : List XNode → Bool
  | [] => true
  | n :: ns => wfNode n && !(isTextNode n && headIsText ns) && wfList ns

end

/-- Well-formed document: the root is a well-formed element. -/
def wfDoc (doc : XMLDoc) : Bool :=
  match doc.root with
  | .elem _ _ => wfNode doc.root
  | .text _ => false

/-- Loader `fetchData`: the fetch either rejects (`Except.error`) or yields the
body text.  A rejection or a parse failure is caught by the `try` block:
the handler only logs (returned message) and no state is set.  On success
the tree is stored and the record list derived from it. -/
def fetchData (result : Except String String) (s : ComponentState) :
    ComponentState × Option String :=
  match result with
  | .error _ => (s, some "Error fetching or parsing XML:")
  | .ok xmlData =>
    match parseDocument xmlData with
    | none => (s, some "Error fetching or parsing XML:")
    | some doc =>
      ({ s with xmlDoc := some doc, airlines := updateAirlineList doc }, none)

/-- The `"Unknown"` coercion applied by the query to a stored field: the empty
string (no text node, or a falsy node value) reads back as `"Unknown"`. -/
def coerceField (s : String) : String :=
  if s = "" then "Unknown" else s

section PathLemmas

theorem evalRelPath_dot (f : String) (n : XNode) :
    evalRelPath (fieldPathDot f) n =
      (n.childrenOf.filter (isElemTag f)).flatMap
        (fun c => c.childrenOf.filter isTextNode) := by
  simp [evalRelPath, fieldPathDot, evalStep]
  rfl

theorem evalRelPath_bare (f : String) (n : XNode) :
    evalRelPath (fieldPathBare f) n =
      (n.childrenOf.filter (isElemTag f)).flatMap
        (fun c => c.childrenOf.filter isTextNode) := by
  simp [evalRelPath, fieldPathBare, evalStep]
  rfl

theorem fieldValueDot_eq_bare (f : String) (n : XNode) :
    fieldValueDot f n = fieldValueBare f n := by
  simp [fieldValueDot, fieldValueBare, select1, evalRelPath_dot, evalRelPath_bare]

theorem preorder_text (s : String) : preorder (.text s) = [.text s] := by
  rw [preorder]

theorem preorder_elem (t : String) (cs : List XNode) :
    preorder (.elem t cs) = .elem t cs :: preorderList cs := by
  rw [preorder]

theorem preorderList_nil : preorderList [] = [] := by
  rw [preorderList]

theorem preorderList_cons (n : XNode) (ns : List XNode) :
    preorderList (n :: ns) = preorder n ++ preorderList ns := by
  rw [preorderList]

theorem preorderList_append (cs ds : List XNode) :
    preorderList (cs ++ ds) = preorderList cs ++ preorderList ds := by
  induction cs with
  | nil => simp [preorderList_nil]
  | cons c cs ih => simp [preorderList_cons, ih]

end PathLemmas

section RecordLemmas

theorem recordOfNode_mk (a : Airline) :
    recordOfNode (mkAirlineElement a) =
      { name := coerceField a.name
        country := coerceField a.country
        type := coerceField a.type } := by
  by_cases h1 : a.name = "" <;> by_cases h2 : a.country = "" <;>
    by_cases h3 : a.type = "" <;>
    simp [recordOfNode, fieldValueDot, select1, evalRelPath_dot, mkAirlineElement,
      setTextContent, XNode.childrenOf, isElemTag, isTextNode, nodeValue,
      textOrUnknown, coerceField, h1, h2, h3]

theorem coerceField_of_ne (s : String) (h : s ≠ "") : coerceField s = s := by
  simp [coerceField, h]

/-- No element in the subtree of a `textContent`-built field child is an
`airline` element. -/
theorem filter_airline_setTextContent (tag s : String) (h : tag ≠ "airline") :
    (preorder (setTextContent tag s)).filter (isElemTag "airline") = [] := by
  by_cases hs : s = "" <;>
    simp [setTextContent, preorder_elem, preorder_text, preorderList_nil,
      preorderList_cons, isElemTag, hs, h]

/-- The only `airline` element in the subtree of a freshly built
`<airline>` element is that element itself. -/
theorem filter_airline_mk (a : Airline) :
    (preorder (mkAirlineElement a)).filter (isElemTag "airline") =
      [mkAirlineElement a] := by
  rw [show mkAirlineElement a = .elem "airline"
        [setTextContent "name" a.name, setTextContent "country" a.country,
         setTextContent "type" a.type] from rfl]
  rw [preorder_elem, preorderList_cons, preorderList_cons, preorderList_cons,
    preorderList_nil, List.filter_cons]
  simp only [List.append_nil, List.filter_append,
    filter_airline_setTextContent "name" a.name (by decide),
    filter_airline_setTextContent "country" a.country (by decide),
    filter_airline_setTextContent "type" a.type (by decide)]
  simp [isElemTag]

/-- Appending a non-`name`/`country`/`type` child to an element does not
change the record the query derives for that element. -/
theorem recordOfNode_append_airline (t : String) (cs : List XNode) (a : Airline) :
    recordOfNode (.elem t (cs ++ [mkAirlineElement a])) =
      recordOfNode (.elem t cs) := by
  simp [recordOfNode, fieldValueDot, select1, evalRelPath_dot, XNode.childrenOf,
    List.filter_append, mkAirlineElement, isElemTag]

/-- Effect of `handleSubmit`'s append on the derived record list: the old
records are unchanged and in their old order, and the record of the new
element comes last. -/
theorem updateAirlineList_append (t : String) (cs : List XNode) (a : Airline) :
    updateAirlineList ⟨.elem t (cs ++ [mkAirlineElement a])⟩ =
      updateAirlineList ⟨.elem t cs⟩ ++ [recordOfNode (mkAirlineElement a)] := by
  simp only [updateAirlineList, selectAllAirlines, preorder_elem,
    preorderList_append, preorderList_cons, preorderList_nil, List.append_nil]
  rw [List.filter_cons, List.filter_cons, List.filter_append, filter_airline_mk]
  have hsame : isElemTag "airline" (XNode.elem t (cs ++ [mkAirlineElement a])) =
      isElemTag "airline" (XNode.elem t cs) := by
    simp [isElemTag]
  rw [hsame]
  by_cases ht : isElemTag "airline" (XNode.elem t cs) = true
  · simp only [ht, if_true]
    simp [recordOfNode_append_airline]
  · simp only [Bool.not_eq_true] at ht
    simp [ht]

end RecordLemmas

section SortLemmas

theorem jsLtChars_asymm :
    ∀ x y, jsLtChars x y = true → jsLtChars y x = false := by
  intro x
  induction x with
  | nil => intro y h; cases y <;> simp [jsLtChars] at *
  | cons a as ih =>
    intro y h
    cases y with
    | nil => simp [jsLtChars] at h
    | cons b bs =>
      simp only [jsLtChars, Bool.or_eq_true, Bool.and_eq_true,
        decide_eq_true_eq, Bool.or_eq_false_iff, Bool.and_eq_false_iff,
        decide_eq_false_iff_not] at h ⊢
      rcases h with h | ⟨he, hr⟩
      · exact ⟨by omega, .inl (by omega)⟩
      · exact ⟨by omega, .inr (ih bs hr)⟩

theorem jsLtChars_trans :
    ∀ x y z, jsLtChars x y = true → jsLtChars y z = true →
      jsLtChars x z = true := by
  intro x
  induction x with
  | nil =>
    intro y z h1 h2
    cases y with
    | nil => simp [jsLtChars] at h1
    | cons b bs =>
      cases z with
      | nil => simp [jsLtChars] at h2
      | cons c cs => simp [jsLtChars]
  | cons a as ih =>
    intro y z h1 h2
    cases y with
    | nil => simp [jsLtChars] at h1
    | cons b bs =>
      cases z with
      | nil => simp [jsLtChars] at h2
      | cons c cs =>
        simp only [jsLtChars, Bool.or_eq_true, Bool.and_eq_true,
          decide_eq_true_eq] at h1 h2 ⊢
        rcases h1 with h1 | ⟨he1, hr1⟩
        · rcases h2 with h2 | ⟨he2, hr2⟩
          · exact .inl (by omega)
          · exact .inl (by omega)
        · rcases h2 with h2 | ⟨he2, hr2⟩
          · exact .inl (by omega)
          · exact .inr ⟨by omega, ih bs cs hr1 hr2⟩

theorem jsLtChars_linear :
    ∀ z x y, jsLtChars z x = true →
      jsLtChars z y = true ∨ jsLtChars y x = true := by
  intro z
  induction z with
  | nil =>
    intro x y h
    cases x with
    | nil => simp [jsLtChars] at h
    | cons b bs =>
      cases y with
      | nil => exact .inr (by simp [jsLtChars])
      | cons c cs => exact .inl (by simp [jsLtChars])
  | cons a as ih =>
    intro x y h
    cases x with
    | nil => simp [jsLtChars] at h
    | cons b bs =>
      cases y with
      | nil => exact .inr (by simp [jsLtChars])
      | cons c cs =>
        simp only [jsLtChars, Bool.or_eq_true, Bool.and_eq_true,
          decide_eq_true_eq] at h ⊢
        rcases h with h | ⟨he, hr⟩
        · rcases Nat.lt_trichotomy a.toNat c.toNat with hc | hc | hc
          · exact .inl (.inl hc)
          · exact .inr (.inl (by omega))
          · exact .inr (.inl (by omega))
        · rcases Nat.lt_trichotomy a.toNat c.toNat with hc | hc | hc
          · exact .inl (.inl hc)
          · rcases ih bs cs hr with h | h
            · exact .inl (.inr ⟨hc, h⟩)
            · exact .inr (.inr ⟨by omega, h⟩)
          · exact .inr (.inl (by omega))

theorem compareAirline_asc_le (k : SortKey) (a b : Airline) :
    compareAirline k .asc a b ≤ 0 ↔
      jsStrLt (getField k b) (getField k a) = false := by
  unfold compareAirline
  by_cases h1 : jsStrLt (getField k a) (getField k b) = true
  · simp only [h1, if_true]
    constructor
    · intro _
      exact jsLtChars_asymm _ _ h1
    · intro _; omega
  · simp only [Bool.not_eq_true] at h1
    simp only [h1, Bool.false_eq_true, if_false]
    by_cases h2 : jsStrLt (getField k b) (getField k a) = true
    · simp only [h2, if_true]
      constructor
      · intro hle; omega
      · intro hc; simp at hc
    · simp only [Bool.not_eq_true] at h2
      simp [h2]

theorem compareAirline_desc_le (k : SortKey) (a b : Airline) :
    compareAirline k .desc a b ≤ 0 ↔
      jsStrLt (getField k a) (getField k b) = false := by
  unfold compareAirline
  by_cases h1 : jsStrLt (getField k a) (getField k b) = true
  · simp only [h1, if_true]
    constructor
    · intro hle; omega
    · intro hc; simp at hc
  · simp only [Bool.not_eq_true] at h1
    simp only [h1, Bool.false_eq_true, if_false]
    by_cases h2 : jsStrLt (getField k b) (getField k a) = true <;> simp [h1, h2]

/-- The sort relation (`comparator ≤ 0`) is total. -/
theorem sortRel_total (k : SortKey) (d : SortDir) (a b : Airline) :
    compareAirline k d a b ≤ 0 ∨ compareAirline k d b a ≤ 0 := by
  cases d
  · rw [compareAirline_asc_le, compareAirline_asc_le]
    by_cases h : jsStrLt (getField k b) (getField k a) = true
    · exact .inr (jsLtChars_asymm _ _ h)
    · exact .inl (by simpa using h)
  · rw [compareAirline_desc_le, compareAirline_desc_le]
    by_cases h : jsStrLt (getField k a) (getField k b) = true
    · exact .inr (jsLtChars_asymm _ _ h)
    · exact .inl (by simpa using h)

/-- The sort relation (`comparator ≤ 0`) is transitive. -/
theorem sortRel_trans (k : SortKey) (d : SortDir) (a b c : Airline)
    (h1 : compareAirline k d a b ≤ 0) (h2 : compareAirline k d b c ≤ 0) :
    compareAirline k d a c ≤ 0 := by
  cases d
  · rw [compareAirline_asc_le] at h1 h2 ⊢
    by_cases h : jsStrLt (getField k c) (getField k a) = true
    · rcases jsLtChars_linear _ _ (getField k b).data h with hx | hx
      · rw [show jsStrLt (getField k c) (getField k b) = true from hx] at h2
        simp at h2
      · rw [show jsStrLt (getField k b) (getField k a) = true from hx] at h1
        simp at h1
    · simpa using h
  · rw [compareAirline_desc_le] at h1 h2 ⊢
    by_cases h : jsStrLt (getField k a) (getField k c) = true
    · rcases jsLtChars_linear _ _ (getField k b).data h with hx | hx
      · rw [show jsStrLt (getField k a) (getField k b) = true from hx] at h1
        simp at h1
      · rw [show jsStrLt (getField k b) (getField k c) = true from hx] at h2
        simp at h2
    · simpa using h

theorem sortedAirlines_perm (k : SortKey) (d : SortDir) (l : List Airline) :
    (sortedAirlines k d l).Perm l :=
  List.perm_insertionSort _ l

theorem sortedAirlines_sorted (k : SortKey) (d : SortDir) (l : List Airline) :
    List.Pairwise (fun a b => compareAirline k d a b ≤ 0)
      (sortedAirlines k d l) := by
  haveI : IsTotal Airline (fun a b => compareAirline k d a b ≤ 0) :=
    ⟨fun a b => sortRel_total k d a b⟩
  haveI : IsTrans Airline (fun a b => compareAirline k d a b ≤ 0) :=
    ⟨fun a b c => sortRel_trans k d a b c⟩
  exact List.sorted_insertionSort _ l

end SortLemmas

section ParserLemmas

mutual

/-- Fuel measure of a node, bounding the recursion depth `parseNodes` needs
to re-read its serialization. -/
def sizeN : XNode → Nat
  | .text _ => 1
  | .elem _ cs => 2 + sizeL cs

/-- Fuel measure of a forest. -/
def sizeL : List XNode → Nat
  | [] => 0
  | n :: ns => sizeN n + sizeL ns

end

theorem sizeN_text (s : String) : sizeN (.text s) = 1 := by rw [sizeN]

theorem sizeN_elem (t : String) (cs : List XNode) :
    sizeN (.elem t cs) = 2 + sizeL cs := by rw [sizeN]

theorem sizeL_nil : sizeL [] = 0 := by rw [sizeL]

theorem sizeL_cons (n : XNode) (ns : List XNode) :
    sizeL (n :: ns) = sizeN n + sizeL ns := by rw [sizeL]

theorem serNode_text (s : String) : serNode (.text s) = escText s.data := by
  rw [serNode]

theorem serNode_elem_nil (t : String) :
    serNode (.elem t []) = '<' :: (t.data ++ ['/', '>']) := by
  rw [serNode]

theorem serNode_elem_cons (t : String) (c : XNode) (cs : List XNode) :
    serNode (.elem t (c :: cs)) =
      '<' :: (t.data ++ ('>' :: (serNodeList (c :: cs) ++
        ('<' :: '/' :: (t.data ++ ['>']))))) := by
  rw [serNode]

theorem serNodeList_nil : serNodeList [] = [] := by rw [serNodeList]

theorem serNodeList_cons (n : XNode) (ns : List XNode) :
    serNodeList (n :: ns) = serNode n ++ serNodeList ns := by
  rw [serNodeList]

theorem wfNode_text (s : String) : wfNode (.text s) = !s.data.isEmpty := by
  rw [wfNode]

theorem wfNode_elem (t : String) (cs : List XNode) :
    wfNode (.elem t cs) = (validTag t && wfList cs) := by
  rw [wfNode]

theorem wfList_nil : wfList [] = true := by rw [wfList]

theorem wfList_cons (n : XNode) (ns : List XNode) :
    wfList (n :: ns) =
      (wfNode n && !(isTextNode n && headIsText ns) && wfList ns) := by
  rw [wfList]

theorem strMk_data (s : String) : (⟨s.data⟩ : String) = s := by
  cases s
  rfl

theorem takeWhile_append_not {p : Char → Bool} :
    ∀ (l : List Char) (c : Char) (r : List Char),
      (∀ x ∈ l, p x = true) → p c = false →
      (l ++ c :: r).takeWhile p = l ∧ (l ++ c :: r).dropWhile p = c :: r := by
  intro l
  induction l with
  | nil =>
    intro c r _ hc
    simp [List.takeWhile_cons, List.dropWhile_cons, hc]
  | cons a l ih =>
    intro c r hl hc
    have ha : p a = true := hl a (by simp)
    have := ih c r (fun x hx => hl x (by simp [hx])) hc
    simp [List.takeWhile_cons, List.dropWhile_cons, ha, this.1, this.2]

theorem takeWhile_all {p : Char → Bool} :
    ∀ (l : List Char), (∀ x ∈ l, p x = true) →
      l.takeWhile p = l ∧ l.dropWhile p = [] := by
  intro l
  induction l with
  | nil => simp
  | cons a l ih =>
    intro hl
    have ha : p a = true := hl a (by simp)
    have := ih (fun x hx => hl x (by simp [hx]))
    simp [List.takeWhile_cons, List.dropWhile_cons, ha, this.1, this.2]

theorem parseTagName_spec {tag : List Char} (htag : tag ≠ [])
    (hall : ∀ x ∈ tag, isNameChar x = true) {c : Char} (hc : isNameChar c = false)
    (r : List Char) : parseTagName (tag ++ c :: r) = some (tag, c :: r) := by
  have h := takeWhile_append_not tag c r hall hc
  simp [parseTagName, h.1, h.2, htag]

theorem escChar_ne_nil (c : Char) : escChar c ≠ [] := by
  unfold escChar
  split
  · decide
  · split
    · decide
    · split
      · decide
      · simp

theorem escChar_no_lt (c : Char) : ∀ x ∈ escChar c, ¬(x = '<') := by
  unfold escChar
  split
  · decide
  · split
    · decide
    · split
      · decide
      · intro x hx
        simp only [List.mem_singleton] at hx
        subst hx
        assumption

theorem escText_no_lt (s : List Char) : ∀ x ∈ escText s, ¬(x = '<') := by
  intro x hx
  simp only [escText, List.mem_flatMap] at hx
  rcases hx with ⟨c, _, hmem⟩
  exact escChar_no_lt c x hmem

theorem escText_ne_nil {s : List Char} (h : s ≠ []) : escText s ≠ [] := by
  cases s with
  | nil => exact absurd rfl h
  | cons c cs =>
    simp only [escText, List.flatMap_cons]
    intro hcontra
    exact escChar_ne_nil c (List.append_eq_nil.mp hcontra).1

set_option maxHeartbeats 3200000 in
theorem unescText_escChar (c : Char) (l : List Char) :
    unescText (escChar c ++ l) = (unescText l).map (fun t => c :: t) := by
  by_cases h1 : c = '&'
  · subst h1; rfl
  · by_cases h2 : c = '<'
    · subst h2; rfl
    · by_cases h3 : c = '>'
      · subst h3; rfl
      · rw [show escChar c = [c] by simp [escChar, h1, h2, h3]]
        show unescText (c :: l) = _
        exact unescText.eq_8 c l (fun _ hc _ => absurd hc h1)
          (fun _ hc _ => absurd hc h1) (fun _ hc _ => absurd hc h1)
          (fun _ hc _ => absurd hc h1) (fun _ hc _ => absurd hc h1) h1

theorem unescText_escText (s : List Char) :
    unescText (escText s) = some s := by
  induction s with
  | nil => rfl
  | cons c cs ih =>
    show unescText (escChar c ++ escText cs) = _
    rw [unescText_escChar, ih]
    rfl

/-- Inputs at which `parseNodes` stops with an empty forest: end of input
or a closing tag. -/
def stopsAt (r : List Char) : Prop :=
  r = [] ∨ ∃ t, r = '<' :: '/' :: t

theorem parseNodes_stopsAt (fuel : Nat) {r : List Char} (h : stopsAt r) :
    parseNodes (fuel + 1) r = some ([], r) := by
  rcases h with rfl | ⟨t, rfl⟩
  · rfl
  · rfl

theorem isNameChar_slash : isNameChar '/' = false := by decide

theorem isNameChar_gt : isNameChar '>' = false := by decide

theorem validTag_parts {tag : String} (h : validTag tag = true) :
    tag.data ≠ [] ∧ ∀ x ∈ tag.data, isNameChar x = true := by
  simp only [validTag, Bool.and_eq_true, Bool.not_eq_true', List.isEmpty_eq_false,
    List.all_eq_true] at h
  exact ⟨h.1, fun x hx => h.2 x hx⟩

/-- The continuation after a well-formed non-text forest entry starts with
`<` (an element or a closing tag) or is empty. -/
theorem serList_head_lt (ts : List XNode) (rest : List Char)
    (hadj : headIsText ts = false) (hstop : stopsAt rest) :
    serNodeList ts ++ rest = [] ∨
      ∃ u, serNodeList ts ++ rest = '<' :: u := by
  cases ts with
  | nil =>
    rw [serNodeList_nil, List.nil_append]
    rcases hstop with rfl | ⟨t, rfl⟩
    · exact .inl rfl
    · exact .inr ⟨'/' :: t, rfl⟩
  | cons t' ts' =>
    cases t' with
    | text s => simp [headIsText, isTextNode] at hadj
    | elem tag2 cs3 =>
      rw [serNodeList_cons]
      cases cs3 with
      | nil => rw [serNode_elem_nil]; exact .inr ⟨_, rfl⟩
      | cons c0 cs3' => rw [serNode_elem_cons]; exact .inr ⟨_, rfl⟩

/-- Splitting the text run at the head of the parser input: everything up to
the next `<` is the escaped text. -/
theorem span_escText (s tail : List Char)
    (htail : tail = [] ∨ ∃ u, tail = '<' :: u) :
    (escText s ++ tail).takeWhile (fun x => decide ¬(x = '<')) = escText s ∧
      (escText s ++ tail).dropWhile (fun x => decide ¬(x = '<')) = tail := by
  have hall : ∀ x ∈ escText s, (fun x => decide ¬(x = '<')) x = true := by
    intro x hx
    simp only [decide_eq_true_eq]
    exact escText_no_lt s x hx
  rcases htail with rfl | ⟨u, rfl⟩
  · rw [List.append_nil]
    exact takeWhile_all _ hall
  · exact takeWhile_append_not _ _ _ hall (by simp)

theorem parseNodes_serNodeList :
    ∀ (fuel : Nat) (cs : List XNode) (rest : List Char),
      wfList cs = true → sizeL cs < fuel → stopsAt rest →
      parseNodes fuel (serNodeList cs ++ rest) = some (cs, rest) := by
  intro fuel
  induction fuel with
  | zero => intro cs rest _ hsz _; omega
  | succ fuel ih =>
    intro cs rest hwf hsz hstop
    cases cs with
    | nil =>
      rw [serNodeList_nil, List.nil_append]
      exact parseNodes_stopsAt fuel hstop
    | cons t ts =>
      rw [serNodeList_cons, List.append_assoc]
      rw [wfList_cons] at hwf
      simp only [Bool.and_eq_true] at hwf
      obtain ⟨⟨hn, hadj⟩, hts⟩ := hwf
      rw [sizeL_cons] at hsz
      cases t with
      | text s =>
        rw [wfNode_text] at hn
        simp only [Bool.not_eq_true', List.isEmpty_eq_false] at hn
        simp only [isTextNode, Bool.true_and, Bool.not_eq_true'] at hadj
        rw [sizeN_text] at hsz
        rw [serNode_text]
        have hne := escText_ne_nil hn
        obtain ⟨e0, es, heq⟩ := List.exists_cons_of_ne_nil hne
        have he0 : ¬(e0 = '<') :=
          escText_no_lt s.data e0 (by rw [heq]; exact List.mem_cons_self _ _)
        have hlt := serList_head_lt ts rest hadj hstop
        have hspan := span_escText s.data (serNodeList ts ++ rest) hlt
        rw [heq] at hspan ⊢
        rw [List.cons_append, parseNodes, if_neg he0]
        rw [List.cons_append] at hspan
        rw [hspan.1, hspan.2, ← heq, unescText_escText,
          ih ts rest hts (by omega) hstop]
      | elem tag cs2 =>
        rw [wfNode_elem] at hn
        simp only [Bool.and_eq_true] at hn
        obtain ⟨htag, hcs2⟩ := hn
        rw [sizeN_elem] at hsz
        obtain ⟨hne, hall⟩ := validTag_parts htag
        obtain ⟨d, ds, hd⟩ := List.exists_cons_of_ne_nil hne
        have hnd : isNameChar d = true := hall d (by rw [hd]; exact List.mem_cons_self _ _)
        have hslash : ¬(d = '/') := by
          intro hcontra
          rw [hcontra, isNameChar_slash] at hnd
          exact absurd hnd (by simp)
        cases cs2 with
        | nil =>
          rw [serNode_elem_nil, List.cons_append, List.append_assoc]
          rw [parseNodes, if_pos rfl]
          rw [show (['/', '>'] ++ (serNodeList ts ++ rest)) =
            '/' :: '>' :: (serNodeList ts ++ rest) from rfl]
          rw [show (tag.data ++ '/' :: '>' :: (serNodeList ts ++ rest)).head? =
              some d by rw [hd]; rfl]
          rw [if_neg (by simp [hslash])]
          rw [parseTagName_spec hne hall isNameChar_slash]
          show (match parseNodes fuel (serNodeList ts ++ rest) with
            | none => none
            | some (ns, rr) => some (XNode.elem ⟨tag.data⟩ [] :: ns, rr)) = _
          rw [ih ts rest hts (by omega) hstop]
        | cons c0 cs2' =>
          rw [serNode_elem_cons]
          rw [show ('<' :: (tag.data ++ ('>' :: (serNodeList (c0 :: cs2') ++
                ('<' :: '/' :: (tag.data ++ ['>'])))))) ++ (serNodeList ts ++ rest) =
              '<' :: (tag.data ++ ('>' :: (serNodeList (c0 :: cs2') ++
                ('<' :: '/' :: (tag.data ++ ('>' :: (serNodeList ts ++ rest)))))))
            by simp]
          rw [parseNodes, if_pos rfl]
          rw [show (tag.data ++ '>' :: (serNodeList (c0 :: cs2') ++
              ('<' :: '/' :: (tag.data ++ ('>' :: (serNodeList ts ++ rest)))))).head? =
              some d by rw [hd]; rfl]
          rw [if_neg (by simp [hslash])]
          rw [parseTagName_spec hne hall isNameChar_gt]
          show (match parseNodes fuel (serNodeList (c0 :: cs2') ++
              ('<' :: '/' :: (tag.data ++ ('>' :: (serNodeList ts ++ rest))))) with
            | none => none
            | some (children, r2) => _) = _
          rw [ih (c0 :: cs2') ('<' :: '/' :: (tag.data ++ ('>' :: (serNodeList ts ++ rest))))
            hcs2 (by omega) (.inr ⟨_, rfl⟩)]
          show (match parseTagName (tag.data ++ ('>' :: (serNodeList ts ++ rest))) with
            | none => none
            | some (ctag, r4) => _) = _
          rw [parseTagName_spec hne hall isNameChar_gt]
          show (if tag.data = tag.data then
            (match parseNodes fuel (serNodeList ts ++ rest) with
              | none => none
              | some (ns, rr) => some (XNode.elem ⟨tag.data⟩ (c0 :: cs2') :: ns, rr))
            else none) = _
          rw [if_pos rfl, ih ts rest hts (by omega) hstop]

/-- The fuel measure of a well-formed forest is bounded by the length of its
serialization, so `parseDocument`'s fuel (input length + 1) always
suffices. -/
theorem sizeL_le_length :
    ∀ (fuel : Nat) (cs : List XNode), wfList cs = true → sizeL cs < fuel →
      sizeL cs ≤ (serNodeList cs).length := by
  intro fuel
  induction fuel with
  | zero => intro cs _ hsz; omega
  | succ fuel ih =>
    intro cs hwf hsz
    cases cs with
    | nil => simp [sizeL_nil]
    | cons t ts =>
      rw [wfList_cons] at hwf
      simp only [Bool.and_eq_true] at hwf
      obtain ⟨⟨hn, _⟩, hts⟩ := hwf
      rw [sizeL_cons] at hsz ⊢
      rw [serNodeList_cons, List.length_append]
      cases t with
      | text s =>
        rw [wfNode_text] at hn
        simp only [Bool.not_eq_true', List.isEmpty_eq_false] at hn
        rw [sizeN_text] at hsz ⊢
        have h1 : 0 < (serNode (.text s)).length := by
          rw [serNode_text]
          exact List.length_pos.mpr (escText_ne_nil hn)
        have h2 := ih ts hts (by omega)
        omega
      | elem tag cs2 =>
        rw [wfNode_elem] at hn
        simp only [Bool.and_eq_true] at hn
        obtain ⟨htag, hcs2⟩ := hn
        obtain ⟨hne, _⟩ := validTag_parts htag
        have htl : 0 < tag.data.length := List.length_pos.mpr hne
        rw [sizeN_elem] at hsz ⊢
        have h2 := ih ts hts (by omega)
        cases cs2 with
        | nil =>
          rw [sizeL_nil] at hsz ⊢
          rw [serNode_elem_nil]
          simp only [List.length_cons, List.length_append]
          omega
        | cons c0 cs2' =>
          have h3 := ih (c0 :: cs2') hcs2 (by omega)
          rw [serNode_elem_cons]
          simp only [List.length_cons, List.length_append]
          omega

/-- Serialize-then-parse reproduces a well-formed document exactly. -/
theorem parseDocument_serializeDoc (doc : XMLDoc) (h : wfDoc doc = true) :
    parseDocument (serializeDoc doc) = some doc := by
  obtain ⟨root⟩ := doc
  cases root with
  | text s => simp [wfDoc] at h
  | elem tag cs =>
    have hwfroot : wfNode (.elem tag cs) = true := by
      simpa [wfDoc] using h
    have hwl : wfList [.elem tag cs] = true := by
      rw [wfList_cons, wfList_nil, hwfroot]
      simp [isTextNode]
    have hser : serNodeList [XNode.elem tag cs] = serNode (.elem tag cs) := by
      rw [serNodeList_cons, serNodeList_nil, List.append_nil]
    have hlen : sizeL [XNode.elem tag cs] ≤ (serNode (.elem tag cs)).length := by
      rw [← hser]
      exact sizeL_le_length (sizeL [XNode.elem tag cs] + 1) _ hwl (by omega)
    have hmain := parseNodes_serNodeList ((serNode (.elem tag cs)).length + 1)
      [.elem tag cs] [] hwl (by omega) (.inl rfl)
    rw [hser, List.append_nil] at hmain
    show parseDocument ⟨serNode (.elem tag cs)⟩ = _
    unfold parseDocument
    rw [show (⟨serNode (.elem tag cs)⟩ : String).data = serNode (.elem tag cs)
      from rfl]
    rw [hmain]

end ParserLemmas

section ClaimSupport

/-- An `airline` element of the canonical generated shape: exactly the three
like-named children, each holding one non-empty text node with the record's
field value. -/
def isBlock (n : XNode) (a : Airline) : Prop :=
  n = .elem "airline" [.elem "name" [.text a.name],
    .elem "country" [.text a.country], .elem "type" [.text a.type]] ∧
    a.name ≠ "" ∧ a.country ≠ "" ∧ a.type ≠ ""

theorem map_eq_of_forall₂ {α β : Type} {R : α → β → Prop} {f : α → β} :
    ∀ {l : List α} {vs : List β}, List.Forall₂ R l vs →
      (∀ x y, R x y → f x = y) → l.map f = vs := by
  intro l vs h hf
  induction h with
  | nil => rfl
  | cons hxy _ ih => simp only [List.map_cons, hf _ _ hxy, ih]

theorem recordOf_block {n : XNode} {a : Airline} (h : isBlock n a) :
    recordOfNode n = a := by
  obtain ⟨hn, h1, h2, h3⟩ := h
  have hmk : n = mkAirlineElement a := by
    rw [hn]
    simp [mkAirlineElement, setTextContent, h1, h2, h3]
  rw [hmk, recordOfNode_mk, coerceField_of_ne _ h1, coerceField_of_ne _ h2,
    coerceField_of_ne _ h3]

/-- Sample block: Air France. -/
def blockNodeA : XNode :=
  .elem "airline" [.elem "name" [.text "AF"], .elem "country" [.text "France"],
    .elem "type" [.text "Commercial"]]

/-- Sample block: British Airways. -/
def blockNodeB : XNode :=
  .elem "airline" [.elem "name" [.text "BA"], .elem "country" [.text "UK"],
    .elem "type" [.text "Cargo"]]

/-- Record of `blockNodeA`. -/
def recA : Airline := { name := "AF", country := "France", type := "Commercial" }

/-- Record of `blockNodeB`. -/
def recB : Airline := { name := "BA", country := "UK", type := "Cargo" }

/-- Sample pending record with every field filled. -/
def recC : Airline := { name := "CX", country := "HK", type := "Cargo" }

/-- Sample document holding the two blocks. -/
def docAB : XMLDoc := ⟨.elem "airlines" [blockNodeA, blockNodeB]⟩

/-- Component state after loading `docAB`, with an all-empty pending
record (the fields a submit with no input would append). -/
def stateAB : ComponentState :=
  { airlines := updateAirlineList docAB
    xmlDoc := some docAB
    newAirline := { name := "", country := "", type := "" }
    sortKey := .name
    sortDirection := .asc }

/-- Component state after loading `docAB`, with a fully filled pending
record. -/
def stateGood : ComponentState :=
  { stateAB with newAirline := recC }

/-- An airline block with no `country` child at all. -/
def blockNoCountry : XNode :=
  .elem "airline" [.elem "name" [.text "ZZ"], .elem "type" [.text "Cargo"]]

/-- Document holding only the country-less block. -/
def docNC : XMLDoc := ⟨.elem "airlines" [blockNoCountry]⟩

end ClaimSupport

section Claims

/-- C1: a document whose `airline` nodes are exactly the canonical generated
blocks for the value list `vs` queries to precisely `vs` — one record per
block, in document order, fields equal to the child text contents — and, in
general, the query always yields exactly one record per `airline` node. -/
theorem c1_query_of_blocks (doc : XMLDoc) (vs : List Airline)
    (h : List.Forall₂ isBlock (selectAllAirlines doc) vs) :
    updateAirlineList doc = vs ∧
      (updateAirlineList doc).length = (selectAllAirlines doc).length := by
  constructor
  · exact map_eq_of_forall₂ h (fun n a hna => recordOf_block hna)
  · simp [updateAirlineList]

/-- Witness for C1 at the two-block sample document. -/
theorem c1_query_of_blocks_witness :
    List.Forall₂ isBlock (selectAllAirlines docAB) [recA, recB] ∧
      (updateAirlineList docAB = [recA, recB] ∧
        (updateAirlineList docAB).length = (selectAllAirlines docAB).length) :=
  have e : selectAllAirlines docAB = [blockNodeA, blockNodeB] := by decide
  have hA : isBlock blockNodeA recA := ⟨rfl, by decide, by decide, by decide⟩
  have hB : isBlock blockNodeB recB := ⟨rfl, by decide, by decide, by decide⟩
  have h : List.Forall₂ isBlock (selectAllAirlines docAB) [recA, recB] := by
    rw [e]
    exact .cons hA (.cons hB .nil)
  ⟨h, c1_query_of_blocks docAB [recA, recB] h⟩

/-- C2: every node selected by a field path (`"./f/text()"`, and equally
`"f/text()"`) at a context node is a text node lying under a direct child
element of that very context node with the field's name — never a node from
elsewhere in the document — so field resolution can never cross-match
between airline entries. -/
theorem c2_immediate_child (n : XNode) (f : String) (t : XNode)
    (h : t ∈ evalRelPath (fieldPathDot f) n) :
    (isTextNode t = true ∧
      ∃ c ∈ n.childrenOf, isElemTag f c = true ∧ t ∈ c.childrenOf) ∧
      evalRelPath (fieldPathBare f) n = evalRelPath (fieldPathDot f) n := by
  refine ⟨?_, by rw [evalRelPath_dot, evalRelPath_bare]⟩
  rw [evalRelPath_dot] at h
  simp only [List.mem_flatMap, List.mem_filter] at h
  obtain ⟨c, ⟨hcmem, hctag⟩, htmem, httext⟩ := h
  exact ⟨httext, c, hcmem, hctag, htmem⟩

/-- Witness for C2: the name text node of the sample block. -/
theorem c2_immediate_child_witness :
    (XNode.text "AF") ∈ evalRelPath (fieldPathDot "name") blockNodeA ∧
      ((isTextNode (XNode.text "AF") = true ∧
        ∃ c ∈ blockNodeA.childrenOf, isElemTag "name" c = true ∧
          (XNode.text "AF") ∈ c.childrenOf) ∧
        evalRelPath (fieldPathBare "name") blockNodeA =
          evalRelPath (fieldPathDot "name") blockNodeA) :=
  have h : (XNode.text "AF") ∈ evalRelPath (fieldPathDot "name") blockNodeA := by
    decide
  ⟨h, c2_immediate_child blockNodeA "name" (XNode.text "AF") h⟩

/-- C3 counterexample: with the two-block document loaded and an all-empty
pending record R (which the store permits), submitting yields
`[A, B, {Unknown, Unknown, Unknown}]`, not `[A, B, R]` — the claim's
conclusion fails for empty-field records because the query coerces empty
fields to `"Unknown"`. -/
theorem c3_counterexample :
    updateAirlineList docAB = [recA, recB] ∧
      stateAB.xmlDoc = some docAB ∧
      stateAB.newAirline = { name := "", country := "", type := "" } ∧
      (handleSubmit serializeDoc stateAB).1.airlines ≠
        [recA, recB, stateAB.newAirline] ∧
      (handleSubmit serializeDoc stateAB).1.airlines =
        [recA, recB, { name := "Unknown", country := "Unknown", type := "Unknown" }] := by
  decide

/-- C3 (amended): for a loaded tree with an element root and a pending
record whose fields are all non-empty, submitting appends exactly that
record at the end of the query result: existing records keep their values
and order, the new record is last. -/
theorem c3_append_last (s : ComponentState) (doc : XMLDoc) (t : String)
    (cs : List XNode) (hdoc : s.xmlDoc = some doc) (hroot : doc.root = .elem t cs)
    (h1 : s.newAirline.name ≠ "") (h2 : s.newAirline.country ≠ "")
    (h3 : s.newAirline.type ≠ "") :
    (handleSubmit serializeDoc s).1.airlines =
      updateAirlineList doc ++ [s.newAirline] := by
  obtain ⟨root⟩ := doc
  simp only at hroot
  subst hroot
  simp only [handleSubmit, hdoc]
  simp only [appendChildRoot]
  rw [updateAirlineList_append, recordOfNode_mk, coerceField_of_ne _ h1,
    coerceField_of_ne _ h2, coerceField_of_ne _ h3]

/-- Witness for C3 (amended) at the sample state with a filled record. -/
theorem c3_append_last_witness :
    (stateGood.xmlDoc = some docAB ∧ docAB.root = .elem "airlines" [blockNodeA, blockNodeB] ∧
      stateGood.newAirline.name ≠ "" ∧ stateGood.newAirline.country ≠ "" ∧
      stateGood.newAirline.type ≠ "") ∧
      (handleSubmit serializeDoc stateGood).1.airlines =
        updateAirlineList docAB ++ [stateGood.newAirline] :=
  ⟨⟨rfl, rfl, by decide, by decide, by decide⟩,
    c3_append_last stateGood docAB "airlines" [blockNodeA, blockNodeB] rfl rfl
      (by decide) (by decide) (by decide)⟩

/-- C4: for an `airline` node with no text under any direct `country` child
(absent child or absent text node), the derived record carries the literal
`"Unknown"` as country while name and type are resolved by the ordinary
field lookup; and running the query never changes the stored tree. -/
theorem c4_missing_country (doc : XMLDoc) (n : XNode)
    (hn : n ∈ selectAllAirlines doc)
    (hmiss : (n.childrenOf.filter (isElemTag "country")).flatMap
      (fun c => c.childrenOf.filter isTextNode) = []) :
    recordOfNode n =
      { name := fieldValueDot "name" n
        country := "Unknown"
        type := fieldValueDot "type" n } ∧
      ∀ s : ComponentState, (runQuery doc s).xmlDoc = s.xmlDoc ∧
        (runQuery doc s).airlines = updateAirlineList doc := by
  constructor
  · show recordOfNode n = _
    unfold recordOfNode
    congr 1
    rw [fieldValueDot, select1, evalRelPath_dot, hmiss]
    rfl
  · intro s
    exact ⟨rfl, rfl⟩

/-- Witness for C4 at the country-less sample block. -/
theorem c4_missing_country_witness :
    (blockNoCountry ∈ selectAllAirlines docNC ∧
      (blockNoCountry.childrenOf.filter (isElemTag "country")).flatMap
        (fun c => c.childrenOf.filter isTextNode) = []) ∧
      (recordOfNode blockNoCountry =
        { name := fieldValueDot "name" blockNoCountry
          country := "Unknown"
          type := fieldValueDot "type" blockNoCountry } ∧
        ∀ s : ComponentState, (runQuery docNC s).xmlDoc = s.xmlDoc ∧
          (runQuery docNC s).airlines = updateAirlineList docNC) :=
  have h1 : blockNoCountry ∈ selectAllAirlines docNC := by decide
  have h2 : (blockNoCountry.childrenOf.filter (isElemTag "country")).flatMap
      (fun c => c.childrenOf.filter isTextNode) = [] := by decide
  ⟨⟨h1, h2⟩, c4_missing_country docNC blockNoCountry h1 h2⟩

/-- C5: sorting is a permutation ordered by plain lexical string comparison
on the selected field — ascending means no later record's field is lexically
below an earlier one's, descending inverts the comparison; the concrete
B,A,C example sorts to A,B,C ascending and C,B,A descending; selecting a
different key resets the direction to ascending, and re-selecting the
current key toggles the direction, so toggling twice from ascending is
ascending again. -/
theorem c5_sorting (k : SortKey) (d : SortDir) (l : List Airline)
    (s : ComponentState) :
    (sortedAirlines k d l).Perm l ∧
      List.Pairwise
        (fun a b => jsStrLt (getField k b) (getField k a) = false)
        (sortedAirlines k .asc l) ∧
      List.Pairwise
        (fun a b => jsStrLt (getField k a) (getField k b) = false)
        (sortedAirlines k .desc l) ∧
      sortedAirlines .name .asc
          [{ name := "B", country := "", type := "" },
           { name := "A", country := "", type := "" },
           { name := "C", country := "", type := "" }] =
        [{ name := "A", country := "", type := "" },
         { name := "B", country := "", type := "" },
         { name := "C", country := "", type := "" }] ∧
      sortedAirlines .name .desc
          [{ name := "B", country := "", type := "" },
           { name := "A", country := "", type := "" },
           { name := "C", country := "", type := "" }] =
        [{ name := "C", country := "", type := "" },
         { name := "B", country := "", type := "" },
         { name := "A", country := "", type := "" }] ∧
      (k ≠ s.sortKey →
        handleSort k s = { s with sortKey := k, sortDirection := .asc }) ∧
      (k = s.sortKey →
        (handleSort k s).sortDirection = toggleDir s.sortDirection ∧
          (handleSort k s).sortKey = s.sortKey) ∧
      (k = s.sortKey → s.sortDirection = .asc →
        (handleSort k s).sortDirection = .desc ∧
          (handleSort k (handleSort k s)).sortDirection = .asc) := by
  refine ⟨sortedAirlines_perm k d l, ?_, ?_, by decide, by decide, ?_, ?_, ?_⟩
  · exact (sortedAirlines_sorted k .asc l).imp
      (fun h => (compareAirline_asc_le k _ _).mp h)
  · exact (sortedAirlines_sorted k .desc l).imp
      (fun h => (compareAirline_desc_le k _ _).mp h)
  · intro hk
    simp [handleSort, hk]
  · intro hk
    simp [handleSort, hk]
  · intro hk hd
    simp [handleSort, hk, hd, toggleDir]

/-- Witness for C5 at concrete keys and the initial state. -/
theorem c5_sorting_witness :
    (SortKey.country ≠ initialState.sortKey ∧
      handleSort .country initialState =
        { initialState with sortKey := .country, sortDirection := .asc }) ∧
      (SortKey.name = initialState.sortKey ∧
        initialState.sortDirection = .asc ∧
        (handleSort .name initialState).sortDirection = .desc ∧
        (handleSort .name (handleSort .name initialState)).sortDirection = .asc) :=
  ⟨⟨by decide,
      (c5_sorting .country .asc [] initialState).2.2.2.2.2.1 (by decide)⟩,
    by decide, by decide,
    (c5_sorting .name .asc [] initialState).2.2.2.2.2.2.2 rfl rfl⟩

/-- C6: serializing a well-formed document and re-parsing the text yields a
document whose query result is identical (here: the identical document), so
the serialize/parse cycle preserves the record sequence. -/
theorem c6_roundtrip (doc : XMLDoc) (h : wfDoc doc = true) :
    ∃ doc', parseDocument (serializeDoc doc) = some doc' ∧
      updateAirlineList doc' = updateAirlineList doc :=
  ⟨doc, parseDocument_serializeDoc doc h, rfl⟩

/-- Witness for C6 at the two-block sample document. -/
theorem c6_roundtrip_witness :
    wfDoc docAB = true ∧
      ∃ doc', parseDocument (serializeDoc docAB) = some doc' ∧
        updateAirlineList doc' = updateAirlineList docAB :=
  ⟨by decide, c6_roundtrip docAB (by decide)⟩

/-- C7: a rejected fetch is absorbed inside the loader — the handler logs
and returns (the transition is total, so nothing propagates), the tree
stays `none` and the record list stays empty; a body whose parse fails is
absorbed the same way. -/
theorem c7_load_failure :
    (∀ e : String, fetchData (.error e) initialState =
      (initialState, some "Error fetching or parsing XML:")) ∧
      (∀ e : String, (fetchData (.error e) initialState).1.xmlDoc = none ∧
        (fetchData (.error e) initialState).1.airlines = []) ∧
      (∀ bad : String, parseDocument bad = none →
        fetchData (.ok bad) initialState =
          (initialState, some "Error fetching or parsing XML:")) := by
  refine ⟨fun e => rfl, fun e => ⟨rfl, rfl⟩, fun bad h => ?_⟩
  simp only [fetchData, h]

/-- Witness for C7: the empty body fails to parse and is absorbed. -/
theorem c7_load_failure_witness :
    parseDocument "" = none ∧
      fetchData (.ok "") initialState =
        (initialState, some "Error fetching or parsing XML:") :=
  ⟨by decide, c7_load_failure.2.2 "" (by decide)⟩

/-- C8: with no document tree loaded, a submit is a silent no-op: the state
(record list, tree, pending record, sort state) is returned unchanged and
nothing is logged; totality of the transition models that no error is
raised. -/
theorem c8_no_tree_noop (s : ComponentState) (h : s.xmlDoc = none) :
    handleSubmit serializeDoc s = (s, none) := by
  simp only [handleSubmit, h]

/-- Witness for C8 at the initial (never-loaded) state. -/
theorem c8_no_tree_noop_witness :
    initialState.xmlDoc = none ∧
      handleSubmit serializeDoc initialState = (initialState, none) :=
  ⟨rfl, c8_no_tree_noop initialState rfl⟩

/-- C9: the two source variants of the query — field lookup by
`"./name/text()"` versus `"name/text()"` (and likewise for country and
type) — produce the identical record list on every document: both paths
denote immediate-child lookup at the airline node. -/
theorem c9_variants_agree (doc : XMLDoc) :
    updateAirlineList doc = updateAirlineListBare doc := by
  unfold updateAirlineList updateAirlineListBare
  apply List.map_congr_left
  intro n _
  unfold recordOfNode recordOfNodeBare
  rw [fieldValueDot_eq_bare, fieldValueDot_eq_bare, fieldValueDot_eq_bare]

/-- C10: submitting a pending record stores it, and the re-derived list ends
with that record's fields passed through the `"Unknown"` coercion — in
particular an all-empty pending record reads back as three `"Unknown"`
fields, so empty strings never survive the append-then-query round trip. -/
theorem c10_empty_fields_unknown (s : ComponentState) (doc : XMLDoc)
    (t : String) (cs : List XNode) (hdoc : s.xmlDoc = some doc)
    (hroot : doc.root = .elem t cs) :
    (handleSubmit serializeDoc s).1.airlines =
      updateAirlineList doc ++
        [{ name := coerceField s.newAirline.name
           country := coerceField s.newAirline.country
           type := coerceField s.newAirline.type }] ∧
      (s.newAirline = { name := "", country := "", type := "" } →
        (handleSubmit serializeDoc s).1.airlines =
          updateAirlineList doc ++
            [{ name := "Unknown", country := "Unknown", type := "Unknown" }]) := by
  obtain ⟨root⟩ := doc
  simp only at hroot
  subst hroot
  have hmain : (handleSubmit serializeDoc s).1.airlines =
      updateAirlineList ⟨.elem t cs⟩ ++
        [{ name := coerceField s.newAirline.name
           country := coerceField s.newAirline.country
           type := coerceField s.newAirline.type }] := by
    simp only [handleSubmit, hdoc]
    simp only [appendChildRoot]
    rw [updateAirlineList_append, recordOfNode_mk]
  refine ⟨hmain, fun hempty => ?_⟩
  rw [hmain, hempty]
  rfl

/-- Witness for C10 at the sample state with the all-empty pending
record. -/
theorem c10_empty_fields_unknown_witness :
    (stateAB.xmlDoc = some docAB ∧
      docAB.root = .elem "airlines" [blockNodeA, blockNodeB] ∧
      stateAB.newAirline = { name := "", country := "", type := "" }) ∧
      (handleSubmit serializeDoc stateAB).1.airlines =
        updateAirlineList docAB ++
          [{ name := "Unknown", country := "Unknown", type := "Unknown" }] :=
  ⟨⟨rfl, rfl, rfl⟩,
    (c10_empty_fields_unknown stateAB docAB "airlines" [blockNodeA, blockNodeB]
      rfl rfl).2 rfl⟩

end Claims

end AirlineStore
